import Mathlib

/-!
Verification of the csql fragment-composition algebra.

The development shallowly embeds the TypeScript source (`src/index.ts`,
current edition: the one whose `staticPrepare` extends the accessor
accumulator with `push(...)` and whose query method linearizes with
starting offset 1; this is the edition the repository's tests exercise).
Fragments become a mutual inductive, accessors become Lean functions,
`prepare`/`staticPrepare` become mutually recursive functions, fallible
helpers return `Except`, and the asynchronous connection is modelled as a
pure capability function.
-/

/-- The `Value` union from the source: values that can be passed to
postgres directly (`null | undefined | string | number | Date | Buffer |
Value[] | {[key: string]: Value}`).  Dates are carried as their ISO text
and buffers as byte lists; numbers are carried as integers (no arithmetic
is ever performed on a `Value` by the source). -/
inductive Value where
  | null
  | undefined
  | str (s : String)
  | num (n : Int)
  | date (iso : String)
  | buffer (bytes : List Nat)
  | arr (vs : List Value)
  | obj (fields : List (String × Value))

/-- `Accessor<A> = (values: A) => Value`. -/
def Accessor (A : Type) : Type := A → Value

/-- `Mapper<I, A> = (values: I) => A`. -/
def Mapper (I A : Type) : Type := I → A

/-- Modelled from the spec: the external escaping adapter's string
function (`pg-format`'s `format.string`, out of scope per §1 and §6).
For string input it returns the string unchanged, which is what §4.1
requires of the `Text` variant (raw SQL inserted verbatim). -/
def format_string (s : String) : String := s

/-- Modelled from the spec: the external escaping adapter's literal
function (`pg-format`'s `format.literal`): deterministic rendering of a
value as SQL literal text (strings single-quoted, numbers bare, null as
the SQL null keyword). -/
def format_literal : Value → String
  | .null => "NULL"
  | .undefined => "NULL"
  | .str s => "'" ++ s ++ "'"
  | .num n => toString n
  | .date iso => "'" ++ iso ++ "'"
  | .buffer _ => "'\\x'"
  | .arr _ => "ARRAY[]"
  | .obj _ => "'{}'"

/-- Modelled from the spec: the external escaping adapter's identifier
function (`pg-format`'s `format.ident`): quotes a name per SQL identifier
rules. -/
def format_ident (name : String) : String := "\"" ++ name ++ "\""

/-- Decimal digit character, `'0'` through `'9'`. -/
def digitChar (d : Nat) : Char := Char.ofNat (48 + d)

/-- Fuel-driven decimal rendering; the fuel is always at least the number
plus one, so it never runs out. -/
def natDigitsAux : Nat → Nat → List Char
  | 0, _ => []
  | fuel+1, n => if n < 10 then [digitChar n] else natDigitsAux fuel (n / 10) ++ [digitChar (n % 10)]

/-- The decimal digits of a natural number, most significant first. -/
def natDigits (n : Nat) : List Char := natDigitsAux (n + 1) n

/-- Decimal rendering of a natural number, the embedding of the
JavaScript number-to-string conversion used in `` `$${argOffset}` ``. -/
def natText (n : Nat) : String := String.mk (natDigits n)

mutual
/-- The fragment tree of the source: `StringFragment` (raw SQL text run
through the adapter's string formatter), `ArgumentFragment` (late-bound
accessor), `QueryFragment` (composite sequence), `LiteralFragment`,
`IdentifierFragment`, and `ValueFragment` (fixed value bound as a
placeholder). -/
inductive Fragment (A : Type) where
  | string (text : String)
  | argument (accessor : Accessor A)
  | query (fragments : FragmentList A)
  | literal (value : Value)
  | ident (name : String)
  | value (value : Value)
/-- The array of children owned by a `QueryFragment`. -/
inductive FragmentList (A : Type) where
  | nil
  | cons (head : Fragment A) (tail : FragmentList A)
end

/-- Build a `FragmentList` from a Lean list. -/
def FragmentList.ofList {A : Type} : List (Fragment A) → FragmentList A
  | [] => .nil
  | f :: fs => .cons f (FragmentList.ofList fs)

mutual
/-- `map` of every variant: leaves are identity-preserving clones,
`ArgumentFragment.map` composes the accessor with the mapper
(`(values) => this.accessor(mapper(values))`), and `QueryFragment.map`
maps every child. -/
def Fragment.map {A I : Type} (mapper : Mapper I A) : Fragment A → Fragment I
  | .string text => .string text
  | .argument accessor => .argument (fun values => accessor (mapper values))
  | .query fragments => .query (FragmentList.map mapper fragments)
  | .literal v => .literal v
  | .ident n => .ident n
  | .value v => .value v
/-- Pointwise `map` on a list of child fragments. -/
def FragmentList.map {A I : Type} (mapper : Mapper I A) : FragmentList A → FragmentList I
  | .nil => .nil
  | .cons head tail => .cons (Fragment.map mapper head) (FragmentList.map mapper tail)
end

mutual
/-- `prepare(argOffset)` of every variant: `ArgumentFragment` and
`ValueFragment` render `"$" + argOffset` and contribute exactly one
accessor; the other leaves render adapter text and contribute none;
`QueryFragment` delegates to `staticPrepare`. -/
def Fragment.prepare {A : Type} : Fragment A → Nat → String × List (Accessor A)
  | .string text, _ => (format_string text, [])
  | .argument accessor, argOffset => ("$" ++ natText argOffset, [accessor])
  | .query fragments, argOffset => Fragment.staticPrepare fragments argOffset
  | .literal v, _ => (format_literal v, [])
  | .ident n, _ => (format_ident n, [])
  | .value v, argOffset => ("$" ++ natText argOffset, [fun _ => v])
/-- `QueryFragment.staticPrepare`: each child is prepared at `argOffset`
plus the number of accessors already collected, the texts are
concatenated and the accessor lists appended in order. -/
def Fragment.staticPrepare {A : Type} : FragmentList A → Nat → String × List (Accessor A)
  | .nil, _ => ("", [])
  | .cons fragment rest, argOffset =>
      let p := Fragment.prepare fragment argOffset
      let q := Fragment.staticPrepare rest (argOffset + p.2.length)
      (p.1 ++ q.1, p.2 ++ q.2)
end

/-- The iterative accumulation of `QueryFragment.staticPrepare` exactly as
written in the source: a `forEach` over the fragments pushing each
fragment's text onto `queryStrings` and extending `accessors` in place,
passing `argOffset + accessors.length` to each child's `prepare`, and
joining the collected strings at the end. -/
def Fragment.staticPrepareIter {A : Type} (fragments : List (Fragment A)) (argOffset : Nat) :
    String × List (Accessor A) :=
  let r := fragments.foldl
    (fun acc fragment =>
      let p := Fragment.prepare fragment (argOffset + acc.2.length)
      (acc.1 ++ [p.1], acc.2 ++ p.2))
    (([] : List String), ([] : List (Accessor A)))
  (String.join r.1, r.2)

mutual
/-- Placeholder scanner over rendered query text, normal state: a `'$'`
switches to the just-after-dollar state, any other character is skipped. -/
def scanText : List Char → List Nat
  | [] => []
  | c :: rest => if c = '$' then scanDollar rest else scanText rest
/-- Scanner state just after a `'$'`: a digit starts a placeholder
number, another `'$'` restarts this state, anything else returns to the
normal state (a bare `'$'` with no digits is not a placeholder marker). -/
def scanDollar : List Char → List Nat
  | [] => []
  | c :: rest =>
      if c.isDigit then scanNum (c.toNat - 48) rest
      else if c = '$' then scanDollar rest else scanText rest
/-- Scanner state inside a placeholder number: digits extend the number
(maximal digit run); the number is emitted when the run ends. -/
def scanNum (acc : Nat) : List Char → List Nat
  | [] => [acc]
  | c :: rest =>
      if c.isDigit then scanNum (10 * acc + (c.toNat - 48)) rest
      else acc :: (if c = '$' then scanDollar rest else scanText rest)
end

/-- The numbers of the placeholder markers (`$` followed by a maximal
nonempty run of decimal digits) present in a string, in left-to-right
order. -/
def placeholders (s : String) : List Nat := scanText s.data

/-- A rendered text chunk is unproblematic for placeholder scanning when
it contains no `'$'` and does not begin with a decimal digit (a leading
digit would extend a placeholder number produced directly before it). -/
def okChunk (s : String) : Bool :=
  s.data.all (fun c => !(c = '$')) && !(s.data.headD ' ').isDigit

mutual
/-- Well-formedness of a fragment for the placeholder-count invariant:
every rendered text chunk of a leaf that does not produce a placeholder
satisfies `okChunk`. -/
def Fragment.good {A : Type} : Fragment A → Bool
  | .string text => okChunk (format_string text)
  | .argument _ => true
  | .query fragments => FragmentList.good fragments
  | .literal v => okChunk (format_literal v)
  | .ident n => okChunk (format_ident n)
  | .value _ => true
/-- All children are well-formed. -/
def FragmentList.good {A : Type} : FragmentList A → Bool
  | .nil => true
  | .cons head tail => Fragment.good head && FragmentList.good tail
end

/-- The possible shapes of an expression embedded in the `sql` tagged
template: `Value | Fragment<A> | BuildMethod<A> | Accessor<A>`.  A build
method is represented by the fragment list it closes over (invoking it
with no mapper returns `new QueryFragment(fragments)`). -/
inductive SqlArg (A : Type) where
  | value (v : Value)
  | fragment (f : Fragment A)
  | buildMethod (fragments : List (Fragment A))
  | accessor (f : Accessor A)

/-- `Fragment.from`: an existing fragment is returned as is; a build
method is invoked, yielding the `QueryFragment` over its fragments; any
other function is wrapped as `ArgumentFragment`; a plain value is
wrapped as `ValueFragment`. -/
def Fragment.fromArg {A : Type} : SqlArg A → Fragment A
  | .fragment f => f
  | .buildMethod fragments => .query (FragmentList.ofList fragments)
  | .accessor f => .argument f
  | .value v => .value v

/-- The fragment list the `sql` tagged template constructs:
`[new StringFragment(strings[0]), ...args.flatMap((arg, index) =>
[Fragment.from(arg), new StringFragment(strings[index + 1])])]`.
For a genuine template literal `strings.length = args.length + 1`, so
every index is in range; out-of-range access is defaulted. -/
def sqlFragments {A : Type} (strings : List String) (args : List (SqlArg A)) :
    List (Fragment A) :=
  Fragment.string (strings.getD 0 "") ::
    (args.enum.flatMap fun p =>
      [Fragment.fromArg p.2, Fragment.string (strings.getD (p.1 + 1) "")])

/-- The alternation contract of §4.2, stated the way the spec words it
(this definition follows the spec, to be compared with `sqlFragments`,
which follows the source): the fragment list alternates `Text(segment_i)`
with the wrapped expression in source order, beginning with
`Text(segment_0)` and always ending with `Text(segment_n)`. -/
def specAlternation {A : Type} : List String → List (SqlArg A) → List (Fragment A)
  | s :: rest, arg :: args => .string s :: Fragment.fromArg arg :: specAlternation rest args
  | s :: _, [] => [.string s]
  | [], _ => []

/-- The build method invoked with no mapper: `new QueryFragment(fragments)`. -/
def buildFragment {A : Type} (fragments : List (Fragment A)) : Fragment A :=
  .query (FragmentList.ofList fragments)

/-- The build method invoked with a mapper:
`new QueryFragment(fragments.map((fragment) => fragment.map(mapper)))`. -/
def buildFragmentMapped {A I : Type} (fragments : List (Fragment A)) (mapper : Mapper I A) :
    Fragment I :=
  .query (FragmentList.ofList (fragments.map (Fragment.map mapper)))

/-- `GenericQueryResult`: the typed row list returned to the caller. -/
structure GenericQueryResult (Row : Type) where
  rows : List Row

/-- The query configuration passed to the connection: statement name,
query text, ordered bind values. -/
structure QueryConfig where
  name : String
  text : String
  values : List Value

/-- Modelled from the spec: the external connection capability
(`pg.Client` / `pg.Pool`, out of scope per §1).  §6 specifies one
asynchronous operation `execute(statementName, text, values) -> rows`;
it is modelled as a pure function from the query configuration to the
returned rows. -/
def Client (Row : Type) : Type := QueryConfig → GenericQueryResult Row

/-- The row-validation loop of the query method:
`ret.rows.map((row, index) => { if (!options.validate(row)) throw new
TypeError(...); return row })`, with the thrown `TypeError` modelled as
`Except.error`; the traversal aborts at the first failing index. -/
def validateRows {Row : Type} (validate : Row → Bool) : Nat → List Row → Except String (List Row)
  | _, [] => .ok []
  | index, row :: rest =>
    if !validate row then .error ("Row " ++ natText index ++ " is invalid")
    else
      match validateRows validate (index + 1) rest with
      | .ok rows => .ok (row :: rows)
      | .error e => .error e

/-- The `execute` closure returned by the query method: the prepared pair
is `QueryFragment.staticPrepare(fragments, 1)`; the call argument
defaults to the empty object when omitted (`values: A = {} as any`,
modelled by the `emptyObject` inhabitant); the accessors are mapped over
the argument to build the ordered bind values; the connection is called
with the cached statement name and text; and if a `validate` type guard
was supplied every returned row is checked.  The statement `name` (a
generated UUID, external per §1) is taken as a parameter. -/
def executeQuery {A Row : Type} (fragments : List (Fragment A)) (conn : Client Row)
    (validate : Option (Row → Bool)) (name : String) (emptyObject : A) (values : Option A) :
    Except String (GenericQueryResult Row) :=
  let p := Fragment.staticPrepare (FragmentList.ofList fragments) 1
  let vs := values.getD emptyObject
  let mappedValues := p.2.map (fun accessor => accessor vs)
  let ret := conn ⟨name, p.1, mappedValues⟩
  match validate with
  | some v =>
    match validateRows v 0 ret.rows with
    | .ok rows => .ok ⟨rows⟩
    | .error e => .error e
  | none => .ok ret

/-- The argument-object shape used with the argument-shorthand helper: a
JavaScript object indexed by string keys. -/
def ArgObj : Type := List (String × Value)

/-- JavaScript property access `args[key]` on an argument object; a
missing key yields `undefined`. -/
def jsIndex (args : ArgObj) (key : String) : Value :=
  match args.lookup key with
  | some v => v
  | none => .undefined

/-- The runtime shapes the argument-shorthand helper can receive: a plain
string key, a template-strings array, or anything else (`undefined`, a
number, a non-array object, ...). -/
inductive AHelperInput where
  | str (s : String)
  | arr (strs : List String)
  | other

/-- The argument-shorthand helper `a`: a string key yields
`new ArgumentFragment((args) => args[name])`; an array of length one (a
one-element template) yields `new ArgumentFragment((args) =>
args[name[0]])`; every other shape throws
`TypeError("Argument builder received invalid arguments")` synchronously,
modelled as `Except.error`. -/
def aHelper : AHelperInput → Except String (Fragment ArgObj)
  | .str s => .ok (.argument (fun args => jsIndex args s))
  | .arr strs =>
      if strs.length = 1 then .ok (.argument (fun args => jsIndex args (strs.getD 0 "")))
      else .error "Argument builder received invalid arguments"
  | .other => .error "Argument builder received invalid arguments"

/-- Extensionality for strings via their character data. -/
theorem string_ext {s t : String} (h : s.data = t.data) : s = t := by
  cases s; cases t; exact congrArg String.mk h

theorem digitChar_isDigit {d : Nat} (h : d < 10) : (digitChar d).isDigit = true := by
  interval_cases d <;> decide

theorem digitChar_toNat {d : Nat} (h : d < 10) : (digitChar d).toNat = 48 + d := by
  interval_cases d <;> decide

theorem natDigitsAux_all_digit (fuel n : Nat) :
    ∀ c ∈ natDigitsAux fuel n, c.isDigit = true := by
  induction fuel generalizing n with
  | zero => intro c hc; simp [natDigitsAux] at hc
  | succ fuel ih =>
    intro c hc
    rw [natDigitsAux] at hc
    by_cases h : n < 10
    · simp [h] at hc
      subst hc
      exact digitChar_isDigit h
    · simp [h] at hc
      rcases hc with hc | hc
      · exact ih (n / 10) c hc
      · subst hc
        exact digitChar_isDigit (Nat.mod_lt n (by omega))

theorem natDigitsAux_ne_nil (fuel n : Nat) (h : 0 < fuel) :
    natDigitsAux fuel n ≠ [] := by
  cases fuel with
  | zero => omega
  | succ fuel =>
    rw [natDigitsAux]
    by_cases h10 : n < 10
    · simp [h10]
    · simp [h10]

/-- One step of decimal accumulation, matching the scanner's digit step. -/
def digitStep (acc : Nat) (c : Char) : Nat := 10 * acc + (c.toNat - 48)

theorem natDigitsAux_foldl (fuel : Nat) :
    ∀ n, n < fuel → ∀ acc, (natDigitsAux fuel n).foldl digitStep acc
      = acc * 10 ^ (natDigitsAux fuel n).length + n := by
  induction fuel with
  | zero => intro n h; omega
  | succ fuel ih =>
    intro n hn acc
    rw [natDigitsAux]
    by_cases h10 : n < 10
    · simp only [h10, if_true, List.foldl_cons, List.foldl_nil, digitStep,
        digitChar_toNat h10, List.length_cons, List.length_nil, pow_one]
      omega
    · simp only [h10, if_false]
      rw [List.foldl_append]
      have hdiv1 : n / 10 < n := Nat.div_lt_self (by omega) (by omega)
      have hdiv : n / 10 < fuel := by omega
      rw [ih (n / 10) hdiv acc]
      have hm : (digitChar (n % 10)).toNat = 48 + n % 10 :=
        digitChar_toNat (Nat.mod_lt n (by omega))
      simp only [List.foldl_cons, List.foldl_nil, digitStep, hm, List.length_append,
        List.length_cons, List.length_nil]
      have hsub : 48 + n % 10 - 48 = n % 10 := by omega
      rw [hsub]
      have hstep : 10 * (acc * 10 ^ (natDigitsAux fuel (n / 10)).length + n / 10) + n % 10
          = acc * (10 ^ (natDigitsAux fuel (n / 10)).length * 10) + (10 * (n / 10) + n % 10) := by
        ring
      rw [hstep, Nat.div_add_mod n 10, pow_succ]

theorem natDigits_foldl (n : Nat) : (natDigits n).foldl digitStep 0 = n := by
  have := natDigitsAux_foldl (n + 1) n (by omega) 0
  simpa [natDigits] using this

theorem natDigits_all_digit (n : Nat) : ∀ c ∈ natDigits n, c.isDigit = true :=
  natDigitsAux_all_digit (n + 1) n

theorem natDigits_ne_nil (n : Nat) : natDigits n ≠ [] :=
  natDigitsAux_ne_nil (n + 1) n (by omega)

/-- A character list does not begin with a decimal digit (so appending it
after a placeholder marker cannot extend the marker's digit run). -/
def startSafe (l : List Char) : Prop := (l.headD ' ').isDigit = false

theorem startSafe_nil : startSafe [] := by
  simp [startSafe]

theorem startSafe_append {l r : List Char} (hl : startSafe l) (hr : startSafe r) :
    startSafe (l ++ r) := by
  cases l with
  | nil => simpa using hr
  | cons c cs => simpa [startSafe] using hl

theorem scanText_append_of_no_dollar {l : List Char} (h : ∀ c ∈ l, ¬ c = '$') :
    ∀ rest : List Char, scanText (l ++ rest) = scanText rest := by
  induction l with
  | nil => intro rest; rfl
  | cons c cs ih =>
    intro rest
    have hc : ¬ c = '$' := h c (by simp)
    rw [List.cons_append, scanText]
    simp only [hc, if_false]
    exact ih (fun d hd => h d (by simp [hd])) rest

theorem scanNum_append_digits {ds : List Char} (h : ∀ c ∈ ds, c.isDigit = true) :
    ∀ (acc : Nat) (rest : List Char),
      scanNum acc (ds ++ rest) = scanNum (ds.foldl digitStep acc) rest := by
  induction ds with
  | nil => intro acc rest; rfl
  | cons c cs ih =>
    intro acc rest
    have hc : c.isDigit = true := h c (by simp)
    rw [List.cons_append, scanNum]
    simp only [hc, if_true]
    exact ih (fun d hd => h d (by simp [hd])) (digitStep acc c) rest

theorem scanNum_startSafe {rest : List Char} (h : startSafe rest) (acc : Nat) :
    scanNum acc rest = acc :: scanText rest := by
  cases rest with
  | nil => rfl
  | cons c cs =>
    have hc : c.isDigit = false := by simpa [startSafe] using h
    rw [scanNum, scanText]
    simp [hc]

/-- Scanning a placeholder marker `"$" ++ natText o` followed by text
that does not begin with a digit yields `o` followed by the scan of the
remainder. -/
theorem scanText_marker (o : Nat) {rest : List Char} (h : startSafe rest) :
    scanText ('$' :: (natDigits o ++ rest)) = o :: scanText rest := by
  rw [scanText]
  simp only [if_true]
  obtain ⟨d, ds, hds⟩ := List.exists_cons_of_ne_nil (natDigits_ne_nil o)
  rw [hds, List.cons_append, scanDollar]
  have hd : d.isDigit = true := by
    have := natDigits_all_digit o
    rw [hds] at this
    exact this d (by simp)
  simp only [hd, if_true]
  have hall : ∀ c ∈ ds, c.isDigit = true := by
    intro c hc
    have := natDigits_all_digit o
    rw [hds] at this
    exact this c (by simp [hc])
  rw [scanNum_append_digits hall (d.toNat - 48) rest, scanNum_startSafe h]
  have hv : ds.foldl digitStep (d.toNat - 48) = o := by
    have := natDigits_foldl o
    rw [hds] at this
    simpa [List.foldl_cons, digitStep] using this
  rw [hv]

theorem range'_append_my (o n1 n2 : Nat) :
    List.range' o n1 ++ List.range' (o + n1) n2 = List.range' o (n1 + n2) := by
  have h := List.range'_append o n1 n2 1
  simp only [Nat.one_mul] at h
  rw [Nat.add_comm n1 n2]
  exact h

theorem okChunk_no_dollar {s : String} (h : okChunk s = true) : ∀ c ∈ s.data, ¬ c = '$' := by
  have h1 := (Bool.and_eq_true _ _).mp h |>.1
  intro c hc
  have := List.all_eq_true.mp h1 c hc
  simpa using this

theorem okChunk_startSafe {s : String} (h : okChunk s = true) : startSafe s.data := by
  have h2 := (Bool.and_eq_true _ _).mp h |>.2
  simpa [startSafe, okChunk] using h2

/-- Scanning a well-formed placeholder-free chunk is a no-op. -/
theorem scan_chunk {s : String} (h : okChunk s = true) {rest : List Char}
    (hrest : startSafe rest) :
    scanText (s.data ++ rest) = scanText rest ∧ startSafe (s.data ++ rest) :=
  ⟨scanText_append_of_no_dollar (okChunk_no_dollar h) rest,
   startSafe_append (okChunk_startSafe h) hrest⟩

/-- Scanning the rendered text of a placeholder leaf. -/
theorem scan_marker_prepare (o : Nat) {rest : List Char} (hrest : startSafe rest) :
    scanText (("$" ++ natText o).data ++ rest) = List.range' o 1 ++ scanText rest
      ∧ startSafe (("$" ++ natText o).data ++ rest) := by
  have hdata : ("$" ++ natText o).data = '$' :: natDigits o := by
    rw [String.data_append]
    rfl
  constructor
  · rw [hdata, List.cons_append, scanText_marker o hrest, List.range'_one]
    rfl
  · rw [hdata]
    simp [startSafe]

mutual
/-- The placeholder markers in the text rendered by `prepare`, scanned
with any digit-safe continuation appended, are exactly the contiguous
numbers starting at the offset, one per accessor; and the rendered text
followed by a digit-safe continuation is itself digit-safe at its head. -/
theorem prepare_scan {A : Type} : ∀ (F : Fragment A) (o : Nat), Fragment.good F = true →
    ∀ (rest : List Char), startSafe rest →
    scanText ((Fragment.prepare F o).1.data ++ rest)
        = List.range' o (Fragment.prepare F o).2.length ++ scanText rest
      ∧ startSafe ((Fragment.prepare F o).1.data ++ rest)
  | .string text, o, hg, rest, hrest => by
      have h := scan_chunk (s := format_string text) (by simpa [Fragment.good] using hg) hrest
      simpa [Fragment.prepare] using h
  | .argument accessor, o, hg, rest, hrest => by
      have h := scan_marker_prepare o hrest
      simpa [Fragment.prepare] using h
  | .query fragments, o, hg, rest, hrest => by
      have h := staticPrepare_scan fragments o (by simpa [Fragment.good] using hg) rest hrest
      simpa [Fragment.prepare] using h
  | .literal v, o, hg, rest, hrest => by
      have h := scan_chunk (s := format_literal v) (by simpa [Fragment.good] using hg) hrest
      simpa [Fragment.prepare] using h
  | .ident n, o, hg, rest, hrest => by
      have h := scan_chunk (s := format_ident n) (by simpa [Fragment.good] using hg) hrest
      simpa [Fragment.prepare] using h
  | .value v, o, hg, rest, hrest => by
      have h := scan_marker_prepare o hrest
      simpa [Fragment.prepare] using h
/-- List version of `prepare_scan` for `staticPrepare`. -/
theorem staticPrepare_scan {A : Type} : ∀ (fs : FragmentList A) (o : Nat),
    FragmentList.good fs = true →
    ∀ (rest : List Char), startSafe rest →
    scanText ((Fragment.staticPrepare fs o).1.data ++ rest)
        = List.range' o (Fragment.staticPrepare fs o).2.length ++ scanText rest
      ∧ startSafe ((Fragment.staticPrepare fs o).1.data ++ rest)
  | .nil, o, _hg, rest, hrest => by
      constructor
      · simp [Fragment.staticPrepare]
      · simpa [Fragment.staticPrepare] using hrest
  | .cons f tail, o, hg, rest, hrest => by
      obtain ⟨hgf, hgt⟩ : Fragment.good f = true ∧ FragmentList.good tail = true := by
        simpa [FragmentList.good, Bool.and_eq_true] using hg
      have h2 := staticPrepare_scan tail (o + (Fragment.prepare f o).2.length) hgt rest hrest
      have h1 := prepare_scan f o hgf
        ((Fragment.staticPrepare tail (o + (Fragment.prepare f o).2.length)).1.data ++ rest) h2.2
      have hfst : (Fragment.staticPrepare (.cons f tail) o).1
          = (Fragment.prepare f o).1
            ++ (Fragment.staticPrepare tail (o + (Fragment.prepare f o).2.length)).1 := rfl
      have hsnd : (Fragment.staticPrepare (.cons f tail) o).2
          = (Fragment.prepare f o).2
            ++ (Fragment.staticPrepare tail (o + (Fragment.prepare f o).2.length)).2 := rfl
      constructor
      · rw [hfst, hsnd, String.data_append, List.append_assoc, h1.1, h2.1,
          List.length_append, ← List.append_assoc, range'_append_my]
      · rw [hfst, String.data_append, List.append_assoc]
        exact h1.2
end

/-- Linearization invariant: for a well-formed fragment, the placeholder
numbers present in the rendered text are exactly the contiguous run
starting at the offset, with one number per accessor. -/
theorem placeholders_prepare {A : Type} (F : Fragment A) (o : Nat)
    (hg : Fragment.good F = true) :
    placeholders (Fragment.prepare F o).1 = List.range' o (Fragment.prepare F o).2.length := by
  have h := (prepare_scan F o hg [] startSafe_nil).1
  rw [List.append_nil] at h
  have hnil : scanText [] = [] := rfl
  rw [hnil, List.append_nil] at h
  exact h

mutual
/-- The accessor list produced by `prepare` does not depend on the
starting offset (the offset only affects the rendered text). -/
theorem prepare_snd_const {A : Type} : ∀ (F : Fragment A) (o1 o2 : Nat),
    (Fragment.prepare F o1).2 = (Fragment.prepare F o2).2
  | .string _, _, _ => rfl
  | .argument _, _, _ => rfl
  | .query fragments, o1, o2 => staticPrepare_snd_const fragments o1 o2
  | .literal _, _, _ => rfl
  | .ident _, _, _ => rfl
  | .value _, _, _ => rfl
/-- List version of `prepare_snd_const`. -/
theorem staticPrepare_snd_const {A : Type} : ∀ (fs : FragmentList A) (o1 o2 : Nat),
    (Fragment.staticPrepare fs o1).2 = (Fragment.staticPrepare fs o2).2
  | .nil, _, _ => rfl
  | .cons f tail, o1, o2 => by
      show (Fragment.prepare f o1).2
            ++ (Fragment.staticPrepare tail (o1 + (Fragment.prepare f o1).2.length)).2
          = (Fragment.prepare f o2).2
            ++ (Fragment.staticPrepare tail (o2 + (Fragment.prepare f o2).2.length)).2
      rw [prepare_snd_const f o1 o2,
        staticPrepare_snd_const tail (o1 + (Fragment.prepare f o2).2.length)
          (o2 + (Fragment.prepare f o2).2.length)]
end

theorem range'_map_shift (o1 o2 n : Nat) :
    (List.range' o1 n).map (fun k => k - o1 + o2) = List.range' o2 n := by
  rw [List.range'_eq_map_range, List.range'_eq_map_range, List.map_map]
  apply List.map_congr_left
  intro j _
  simp only [Function.comp_apply]
  omega

mutual
/-- Remapping twice equals remapping once by the composed mapper, as
fragment trees (`ArgumentFragment.map` composes accessors; every other
variant clones). -/
theorem map_map_fragment {A I J : Type} (g : Mapper I J) (h : Mapper J A) :
    ∀ F : Fragment A,
      Fragment.map g (Fragment.map h F) = Fragment.map (fun values => h (g values)) F
  | .string _ => rfl
  | .argument _ => rfl
  | .query fragments => by
      show Fragment.query (FragmentList.map g (FragmentList.map h fragments))
          = Fragment.query (FragmentList.map (fun values => h (g values)) fragments)
      rw [map_map_list g h fragments]
  | .literal _ => rfl
  | .ident _ => rfl
  | .value _ => rfl
/-- List version of `map_map_fragment`. -/
theorem map_map_list {A I J : Type} (g : Mapper I J) (h : Mapper J A) :
    ∀ fs : FragmentList A,
      FragmentList.map g (FragmentList.map h fs) = FragmentList.map (fun values => h (g values)) fs
  | .nil => rfl
  | .cons f tail => by
      show FragmentList.cons (Fragment.map g (Fragment.map h f))
            (FragmentList.map g (FragmentList.map h tail))
          = FragmentList.cons (Fragment.map (fun values => h (g values)) f)
            (FragmentList.map (fun values => h (g values)) tail)
      rw [map_map_fragment g h f, map_map_list g h tail]
end

/-- When every row passes the validation predicate, the validation loop
returns the row list unchanged. -/
theorem validateRows_all_ok {Row : Type} (v : Row → Bool) :
    ∀ (rows : List Row) (i : Nat), (∀ r ∈ rows, v r = true) →
      validateRows v i rows = .ok rows := by
  intro rows
  induction rows with
  | nil => intro i _; rfl
  | cons r rest ih =>
    intro i h
    have hr : v r = true := h r (by simp)
    rw [validateRows]
    simp only [hr, Bool.not_true, Bool.false_eq_true, if_false]
    rw [ih (i + 1) (fun x hx => h x (by simp [hx]))]

/-- When row `j` is the first row failing the validation predicate, the
validation loop fails with the error naming index `i + j`. -/
theorem validateRows_fail {Row : Type} (v : Row → Bool) :
    ∀ (rows : List Row) (i j : Nat) (hj : j < rows.length),
      v (rows.get ⟨j, hj⟩) = false →
      (∀ k (hk : k < j), v (rows.get ⟨k, Nat.lt_trans hk hj⟩) = true) →
      validateRows v i rows = .error ("Row " ++ natText (i + j) ++ " is invalid") := by
  intro rows
  induction rows with
  | nil => intro i j hj; simp at hj
  | cons r rest ih =>
    intro i j hj hfail hbefore
    cases j with
    | zero =>
      rw [validateRows]
      simp only [List.get] at hfail
      simp only [hfail, Bool.not_false, if_true, Nat.add_zero]
    | succ j2 =>
      have hr : v r = true := hbefore 0 (by omega)
      rw [validateRows]
      simp only [hr, Bool.not_true, Bool.false_eq_true, if_false]
      have hj2 : j2 < rest.length := by simpa using hj
      have hrec := ih (i + 1) j2 hj2 (by simpa using hfail)
        (fun k hk => hbefore (k + 1) (by omega))
      rw [hrec]
      have harith : i + 1 + j2 = i + (j2 + 1) := by omega
      rw [harith]

/-- The accessors prepared from a list of `ValueFragment`s recover the
original values whatever argument they are applied to. -/
theorem staticPrepare_values_map {A : Type} :
    ∀ (vs : List Value) (o : Nat) (x : A),
      (Fragment.staticPrepare (FragmentList.ofList
          (vs.map (fun v => Fragment.value v))) o).2.map (fun accessor => accessor x) = vs := by
  intro vs
  induction vs with
  | nil => intro o x; rfl
  | cons v rest ih =>
    intro o x
    have step : (Fragment.staticPrepare (FragmentList.ofList
          ((v :: rest).map (fun w => Fragment.value w))) o).2
        = (fun _ : A => v) :: (Fragment.staticPrepare (FragmentList.ofList
            (rest.map (fun w => Fragment.value w))) (o + 1)).2 := rfl
    rw [step, List.map_cons, ih (o + 1) x]

theorem sqlFragments_shift {A : Type} :
    ∀ (args : List (SqlArg A)) (k : Nat) (rest : List String),
      (List.enumFrom (k + 1) args).flatMap
        (fun p => [Fragment.fromArg p.2, Fragment.string (rest.getD p.1 "")])
      = (List.enumFrom k args).flatMap
        (fun p => [Fragment.fromArg p.2, Fragment.string (rest.getD (p.1 + 1) "")]) := by
  intro args
  induction args with
  | nil => intro k rest; rfl
  | cons a as ih =>
    intro k rest
    simp only [List.enumFrom, List.flatMap_cons]
    rw [ih (k + 1) rest]

/-- The template construction peels off one segment and one embedded
expression at a time. -/
theorem sqlFragments_cons {A : Type} (s : String) (rest : List String)
    (arg : SqlArg A) (args : List (SqlArg A)) :
    sqlFragments (s :: rest) (arg :: args)
      = .string s :: Fragment.fromArg arg :: sqlFragments rest args := by
  unfold sqlFragments
  simp only [List.getD_cons_zero, List.enum, List.enumFrom, List.flatMap_cons,
    List.getD_cons_succ, List.cons_append, List.nil_append]
  rw [sqlFragments_shift args 0 rest]

theorem string_foldl_append (l : List String) :
    ∀ (a b : String), l.foldl (fun r t => r ++ t) (a ++ b) = a ++ l.foldl (fun r t => r ++ t) b := by
  induction l with
  | nil => intro a b; rfl
  | cons c cs ih =>
    intro a b
    simp only [List.foldl_cons]
    rw [String.append_assoc, ih a (b ++ c)]

theorem string_join_cons (s : String) (l : List String) :
    String.join (s :: l) = s ++ String.join l := by
  simp only [String.join, List.foldl_cons]
  rw [String.empty_append]
  have h := string_foldl_append l s ""
  rw [String.append_empty] at h
  exact h

theorem string_join_snoc (l : List String) (x : String) :
    String.join (l ++ [x]) = String.join l ++ x := by
  induction l with
  | nil =>
    rw [List.nil_append, string_join_cons]
    show x ++ "" = "" ++ x
    rw [String.append_empty, String.empty_append]
  | cons s ss ih =>
    rw [List.cons_append, string_join_cons, ih, string_join_cons, String.append_assoc]

theorem staticPrepareIter_aux {A : Type} (argOffset : Nat) :
    ∀ (fs : List (Fragment A)) (strs : List String) (accs : List (Accessor A)),
      String.join ((fs.foldl (fun acc fragment =>
          let p := Fragment.prepare fragment (argOffset + acc.2.length)
          (acc.1 ++ [p.1], acc.2 ++ p.2)) (strs, accs)).1)
        = String.join strs
          ++ (Fragment.staticPrepare (FragmentList.ofList fs) (argOffset + accs.length)).1
      ∧ (fs.foldl (fun acc fragment =>
          let p := Fragment.prepare fragment (argOffset + acc.2.length)
          (acc.1 ++ [p.1], acc.2 ++ p.2)) (strs, accs)).2
        = accs ++ (Fragment.staticPrepare (FragmentList.ofList fs) (argOffset + accs.length)).2 := by
  intro fs
  induction fs with
  | nil =>
    intro strs accs
    constructor
    · show String.join strs = String.join strs ++ ""
      rw [String.append_empty]
    · show accs = accs ++ []
      rw [List.append_nil]
  | cons f rest ih =>
    intro strs accs
    have hfold : (f :: rest).foldl (fun acc fragment =>
          let p := Fragment.prepare fragment (argOffset + acc.2.length)
          (acc.1 ++ [p.1], acc.2 ++ p.2)) (strs, accs)
        = rest.foldl (fun acc fragment =>
          let p := Fragment.prepare fragment (argOffset + acc.2.length)
          (acc.1 ++ [p.1], acc.2 ++ p.2))
          (strs ++ [(Fragment.prepare f (argOffset + accs.length)).1],
           accs ++ (Fragment.prepare f (argOffset + accs.length)).2) := rfl
    have hstatic1 : (Fragment.staticPrepare (FragmentList.ofList (f :: rest))
          (argOffset + accs.length)).1
        = (Fragment.prepare f (argOffset + accs.length)).1
          ++ (Fragment.staticPrepare (FragmentList.ofList rest)
              (argOffset + accs.length + (Fragment.prepare f (argOffset + accs.length)).2.length)).1
        := rfl
    have hstatic2 : (Fragment.staticPrepare (FragmentList.ofList (f :: rest))
          (argOffset + accs.length)).2
        = (Fragment.prepare f (argOffset + accs.length)).2
          ++ (Fragment.staticPrepare (FragmentList.ofList rest)
              (argOffset + accs.length + (Fragment.prepare f (argOffset + accs.length)).2.length)).2
        := rfl
    have harith : argOffset + (accs ++ (Fragment.prepare f (argOffset + accs.length)).2).length
        = argOffset + accs.length + (Fragment.prepare f (argOffset + accs.length)).2.length := by
      rw [List.length_append]
      omega
    have hrec := ih (strs ++ [(Fragment.prepare f (argOffset + accs.length)).1])
      (accs ++ (Fragment.prepare f (argOffset + accs.length)).2)
    rw [harith] at hrec
    constructor
    · rw [hfold, hrec.1, hstatic1, string_join_snoc, String.append_assoc]
    · rw [hfold, hrec.2, hstatic2, List.append_assoc]

/-- The literal `forEach`-accumulator translation of `staticPrepare`
agrees with the recursive presentation used throughout this file. -/
theorem staticPrepareIter_eq {A : Type} (fragments : List (Fragment A)) (argOffset : Nat) :
    Fragment.staticPrepareIter fragments argOffset
      = Fragment.staticPrepare (FragmentList.ofList fragments) argOffset := by
  have h := staticPrepareIter_aux argOffset fragments [] []
  unfold Fragment.staticPrepareIter
  have h0 : argOffset + ([] : List (Accessor A)).length = argOffset := rfl
  rw [h0] at h
  have h1 := h.1
  have h2 := h.2
  rw [show String.join ([] : List String) = "" from rfl, String.empty_append] at h1
  rw [List.nil_append] at h2
  exact Prod.ext h1 h2

/-- C1 (amended): for every fragment `F` and offset `o` such that no
rendered non-placeholder chunk of `F` contains a `'$'` or begins with a
decimal digit (`Fragment.good F`), `prepare(F, o)` returns an accessor
list whose length equals the number of placeholder markers in the
returned text; the placeholder numbers read left to right are exactly
`o, o+1, ...`, one per accessor, so the Nth accessor corresponds to the
Nth placeholder and the numbering is contiguous starting at `o`.  This
holds in particular for a `QueryFragment` with multiple
placeholder-bearing children. -/
theorem claim1_placeholder_invariant {A : Type} (F : Fragment A) (o : Nat)
    (hg : Fragment.good F = true) :
    placeholders (Fragment.prepare F o).1 = List.range' o (Fragment.prepare F o).2.length
    ∧ (placeholders (Fragment.prepare F o).1).length = (Fragment.prepare F o).2.length := by
  have h := placeholders_prepare F o hg
  exact ⟨h, by rw [h, List.length_range']⟩

/-- Witness for C1 at a `QueryFragment` with two placeholder-bearing
children (a fixed value and a late-bound argument). -/
theorem claim1_witness :
    placeholders (Fragment.prepare (A := ArgObj)
        (.query (.cons (.string "SELECT ") (.cons (.value (.num 1)) (.cons (.string " ")
          (.cons (.argument (fun args => jsIndex args "k")) (.cons (.string "") .nil)))))) 1).1
      = List.range' 1 (Fragment.prepare (A := ArgObj)
        (.query (.cons (.string "SELECT ") (.cons (.value (.num 1)) (.cons (.string " ")
          (.cons (.argument (fun args => jsIndex args "k")) (.cons (.string "") .nil)))))) 1).2.length
    ∧ (placeholders (Fragment.prepare (A := ArgObj)
        (.query (.cons (.string "SELECT ") (.cons (.value (.num 1)) (.cons (.string " ")
          (.cons (.argument (fun args => jsIndex args "k")) (.cons (.string "") .nil)))))) 1).1).length
      = (Fragment.prepare (A := ArgObj)
        (.query (.cons (.string "SELECT ") (.cons (.value (.num 1)) (.cons (.string " ")
          (.cons (.argument (fun args => jsIndex args "k")) (.cons (.string "") .nil)))))) 1).2.length :=
  claim1_placeholder_invariant
    (.query (.cons (.string "SELECT ") (.cons (.value (.num 1)) (.cons (.string " ")
      (.cons (.argument (fun args => jsIndex args "k")) (.cons (.string "") .nil)))))) 1 (by rfl)

/-- Counterexample to C1 as stated (without the well-formedness proviso):
the raw text chunk `"$1"` renders verbatim, so the returned text holds
one placeholder marker while the accessor list is empty. -/
theorem claim1_counterexample :
    ¬ ((placeholders (Fragment.prepare (A := ArgObj) (.string "$1") 1).1).length
        = (Fragment.prepare (A := ArgObj) (.string "$1") 1).2.length) := by
  decide

/-- C2: embedding a sub-builder renumbers the inner placeholders
contiguously at the position where it occurs and shifts later
placeholders by the inner count: `sql"OUTER (${inner}) ${3}"` with
`inner = sql"INNER ${1} ${2}"` executes with text
`"OUTER (INNER $1 $2) $3"` and bind values `[1, 2, 3]`, and
`sql"OUTER ${3} (${inner})"` executes with text
`"OUTER $1 (INNER $2 $3)"` and bind values `[3, 1, 2]`. -/
theorem claim2_nested_renumbering {Row : Type} (conn : Client Row) (name : String) :
    executeQuery (A := ArgObj)
      (sqlFragments ["OUTER (", ") ", ""]
        [.buildMethod (sqlFragments ["INNER ", " ", ""] [.value (.num 1), .value (.num 2)]),
         .value (.num 3)])
      conn none name [] none
      = .ok (conn ⟨name, "OUTER (INNER $1 $2) $3", [.num 1, .num 2, .num 3]⟩)
    ∧ executeQuery (A := ArgObj)
      (sqlFragments ["OUTER ", " (", ")"]
        [.value (.num 3),
         .buildMethod (sqlFragments ["INNER ", " ", ""] [.value (.num 1), .value (.num 2)])])
      conn none name [] none
      = .ok (conn ⟨name, "OUTER $1 (INNER $2 $3)", [.num 3, .num 1, .num 2]⟩) :=
  ⟨rfl, rfl⟩

/-- C3 (amended): for every fragment `F` and offsets `o1`, `o2`, the
accessor lists of `prepare(F, o1)` and `prepare(F, o2)` are equal (hence
of equal length, yielding equal values on equal arguments); and provided
no rendered non-placeholder chunk of `F` contains a `'$'` or begins with
a digit, the placeholder numbers of `prepare(F, o2)`'s text are exactly
those of `prepare(F, o1)`'s text shifted by `o2 - o1`. -/
theorem claim3_offset_shift {A : Type} (F : Fragment A) (o1 o2 : Nat) :
    (Fragment.prepare F o2).2 = (Fragment.prepare F o1).2
    ∧ (∀ x : A, (Fragment.prepare F o2).2.map (fun accessor => accessor x)
        = (Fragment.prepare F o1).2.map (fun accessor => accessor x))
    ∧ (Fragment.good F = true →
        placeholders (Fragment.prepare F o2).1
          = (placeholders (Fragment.prepare F o1).1).map (fun k => k - o1 + o2)) := by
  refine ⟨prepare_snd_const F o2 o1, fun x => by rw [prepare_snd_const F o2 o1], fun hg => ?_⟩
  rw [placeholders_prepare F o1 hg, placeholders_prepare F o2 hg,
    prepare_snd_const F o2 o1, range'_map_shift]

/-- Witness for C3 at a concrete finalized fragment and offsets 1, 4. -/
theorem claim3_witness :
    placeholders (Fragment.prepare (A := ArgObj)
        (.query (.cons (.string "W ") (.cons (.value (.num 5)) (.cons (.string "") .nil)))) 4).1
      = (placeholders (Fragment.prepare (A := ArgObj)
          (.query (.cons (.string "W ") (.cons (.value (.num 5)) (.cons (.string "") .nil)))) 1).1).map
          (fun k => k - 1 + 4) :=
  (claim3_offset_shift
    (.query (.cons (.string "W ") (.cons (.value (.num 5)) (.cons (.string "") .nil)))) 1 4).2.2
    (by rfl)

/-- Counterexample to C3 as stated (without the proviso): the finalized
fragment over the raw chunk `"$7"` renders the same text at every offset,
so its placeholder numbers do not shift with the offset. -/
theorem claim3_counterexample :
    ¬ (placeholders (Fragment.prepare (A := ArgObj)
          (.query (.cons (.string "$7") .nil)) 2).1
        = (placeholders (Fragment.prepare (A := ArgObj)
            (.query (.cons (.string "$7") .nil)) 1).1).map (fun k => k - 1 + 2)) := by
  decide

/-- C4: remap satisfies the composition law: for `g : I -> J` and
`h : J -> A`, remapping `F` by `h` and then by `g` is behaviorally
equivalent to one remap by the composition — same rendered text at every
offset and same bound values for every argument of type `I`. -/
theorem claim4_remap_composition {A I J : Type} (F : Fragment A) (g : Mapper I J)
    (h : Mapper J A) (o : Nat) :
    (Fragment.prepare (Fragment.map g (Fragment.map h F)) o).1
      = (Fragment.prepare (Fragment.map (fun values => h (g values)) F) o).1
    ∧ ∀ x : I,
      (Fragment.prepare (Fragment.map g (Fragment.map h F)) o).2.map
          (fun accessor => accessor x)
        = (Fragment.prepare (Fragment.map (fun values => h (g values)) F) o).2.map
            (fun accessor => accessor x) := by
  rw [map_map_fragment g h F]
  exact ⟨rfl, fun x => rfl⟩

/-- C5: the `StringFragment` (`Text`) variant's `prepare` returns the
stored string unchanged with an empty accessor list, unconditionally, for
every input string and offset: raw SQL text is inserted verbatim, with no
escaping and no placeholders. -/
theorem claim5_text_verbatim (A : Type) (s : String) (o : Nat) :
    Fragment.prepare (A := A) (.string s) o = (s, []) := rfl

/-- C6: the argument-shorthand helper, given exactly one key (as a plain
string or a one-element template), returns an `ArgumentFragment` whose
accessor indexes the eventual argument value by that key; given zero keys
(nothing, or an empty array) or more than one key it raises the
invalid-usage `TypeError` synchronously at construction time. -/
theorem claim6_argument_shorthand :
    (∀ k : String, aHelper (.str k) = .ok (.argument (fun args => jsIndex args k)))
    ∧ (∀ k : String, aHelper (.arr [k]) = .ok (.argument (fun args => jsIndex args k)))
    ∧ aHelper (.arr []) = .error "Argument builder received invalid arguments"
    ∧ (∀ strs : List String, 2 ≤ strs.length →
        aHelper (.arr strs) = .error "Argument builder received invalid arguments")
    ∧ aHelper .other = .error "Argument builder received invalid arguments" := by
  refine ⟨fun k => rfl, fun k => rfl, rfl, fun strs h => ?_, rfl⟩
  have hne : ¬ strs.length = 1 := by omega
  simp [aHelper, hne]

/-- Witness for C6 at a two-element template array. -/
theorem claim6_witness :
    aHelper (.arr ["a", "b"]) = .error "Argument builder received invalid arguments" :=
  claim6_argument_shorthand.2.2.2.1 ["a", "b"] (by decide)

/-- C7: when a row-validation predicate is supplied to the query method,
every returned row is checked: if all rows pass, the connection's rows
are returned unchanged; if row `j` is the first row failing the
predicate, the whole call fails with the error naming index `j` and no
rows are returned; with no predicate the rows pass through unchanged. -/
theorem claim7_row_validation {A Row : Type} (fragments : List (Fragment A)) (conn : Client Row)
    (v : Row → Bool) (name : String) (emptyObject : A) (values : Option A)
    (ret : GenericQueryResult Row)
    (hconn : conn ⟨name, (Fragment.staticPrepare (FragmentList.ofList fragments) 1).1,
        (Fragment.staticPrepare (FragmentList.ofList fragments) 1).2.map
          (fun accessor => accessor (values.getD emptyObject))⟩ = ret) :
    ((∀ r ∈ ret.rows, v r = true) →
        executeQuery fragments conn (some v) name emptyObject values = .ok ⟨ret.rows⟩)
    ∧ (∀ j (hj : j < ret.rows.length), v (ret.rows.get ⟨j, hj⟩) = false →
        (∀ k (hk : k < j), v (ret.rows.get ⟨k, Nat.lt_trans hk hj⟩) = true) →
        executeQuery fragments conn (some v) name emptyObject values
          = .error ("Row " ++ natText j ++ " is invalid"))
    ∧ executeQuery fragments conn none name emptyObject values = .ok ret := by
  have hkey : executeQuery fragments conn (some v) name emptyObject values
      = (match validateRows v 0 ret.rows with
         | .ok rows => .ok ⟨rows⟩
         | .error e => .error e) := by
    rw [← hconn]
    rfl
  have hnone : executeQuery fragments conn none name emptyObject values = .ok ret := by
    rw [← hconn]
    rfl
  refine ⟨?_, ?_, hnone⟩
  · intro hall
    rw [hkey, validateRows_all_ok v ret.rows 0 hall]
  · intro j hj hfail hbefore
    rw [hkey, validateRows_fail v ret.rows 0 j hj hfail hbefore]
    rw [Nat.zero_add]

/-- Witness for C7, the spec's Scenario 6: a two-row result whose row at
index 1 fails the predicate makes the whole call fail naming row 1, and
row 0 is not returned. -/
theorem claim7_witness :
    executeQuery (A := ArgObj) ([] : List (Fragment ArgObj))
      (fun _ => ⟨[(100 : Nat), 200]⟩) (some (fun r => r == 100)) "stmt" [] none
      = .error "Row 1 is invalid" := by
  have h := (claim7_row_validation ([] : List (Fragment ArgObj))
      (fun _ => (⟨[(100 : Nat), 200]⟩ : GenericQueryResult Nat)) (fun r => r == 100)
      "stmt" [] none ⟨[100, 200]⟩ rfl).2.1 1 (by decide) rfl
      (fun k hk => by
        have hk0 : k = 0 := by omega
        subst hk0
        rfl)
  exact h.trans rfl

/-- C8: for a template with literal segments `s_0 .. s_n` and `n`
embedded expressions, the builder constructs the fragment list that
alternates `Text(s_i)` with the wrapped expression in source order,
beginning with `Text(s_0)`, always ending with `Text(s_n)` even when it
is empty, and therefore of length `2 n + 1`. -/
theorem claim8_alternation {A : Type} :
    ∀ (args : List (SqlArg A)) (strings : List String),
      strings.length = args.length + 1 →
      sqlFragments strings args = specAlternation strings args
      ∧ (sqlFragments strings args).length = 2 * args.length + 1 := by
  intro args
  induction args with
  | nil =>
    intro strings h
    cases strings with
    | nil => simp at h
    | cons s rest =>
      cases rest with
      | nil => exact ⟨rfl, rfl⟩
      | cons t ts =>
        simp only [List.length_cons, List.length_nil] at h
        omega
  | cons a as ih =>
    intro strings h
    cases strings with
    | nil => simp at h
    | cons s rest =>
      have hlen : rest.length = as.length + 1 := by
        simpa using h
      have hrec := ih rest hlen
      rw [sqlFragments_cons]
      refine ⟨?_, ?_⟩
      · rw [hrec.1]
        rfl
      · simp only [List.length_cons, hrec.2]
        omega

/-- Witness for C8 at the template `sql"A ${7}"` (segments `["A ", ""]`,
one embedded value), whose trailing segment is empty. -/
theorem claim8_witness :
    sqlFragments (A := ArgObj) ["A ", ""] [.value (.num 7)]
      = specAlternation ["A ", ""] [.value (.num 7)]
    ∧ (sqlFragments (A := ArgObj) ["A ", ""] [.value (.num 7)]).length = 2 * 1 + 1 := by
  have h := claim8_alternation (A := ArgObj) [.value (.num 7)] ["A ", ""] (by rfl)
  simpa using h

/-- C9: `Fragment.from` applied to a value that is already a fragment
returns that fragment unchanged, and applying it again to the result of
any conversion returns the same fragment (idempotence), so an embedded
sub-fragment is shared rather than copied. -/
theorem claim9_from_identity {A : Type} (f : Fragment A) (x : SqlArg A) :
    Fragment.fromArg (.fragment f) = f
    ∧ Fragment.fromArg (.fragment (Fragment.fromArg x)) = Fragment.fromArg x :=
  ⟨rfl, rfl⟩

/-- C10: the executable returned by the query method may be invoked with
no argument, in which case the empty object is substituted and every
prepared accessor is applied to it; a query built only from fixed-value
placeholders therefore executes successfully with exactly its fixed bind
values. -/
theorem claim10_default_empty_argument {Row : Type} (conn : Client Row) (name : String)
    (vs : List Value) :
    (∀ fragments : List (Fragment ArgObj),
        executeQuery fragments conn none name ([] : ArgObj) none
          = executeQuery fragments conn none name ([] : ArgObj) (some ([] : ArgObj)))
    ∧ executeQuery (vs.map (fun v => Fragment.value (A := ArgObj) v)) conn none name
        ([] : ArgObj) none
      = .ok (conn ⟨name,
          (Fragment.staticPrepare (FragmentList.ofList
            (vs.map (fun v => Fragment.value (A := ArgObj) v))) 1).1,
          vs⟩) := by
  constructor
  · intro fragments
    rfl
  · have hL : executeQuery (vs.map (fun v => Fragment.value (A := ArgObj) v)) conn none name
          ([] : ArgObj) none
        = .ok (conn ⟨name,
            (Fragment.staticPrepare (FragmentList.ofList
              (vs.map (fun v => Fragment.value (A := ArgObj) v))) 1).1,
            (Fragment.staticPrepare (FragmentList.ofList
              (vs.map (fun v => Fragment.value (A := ArgObj) v))) 1).2.map
              (fun accessor => accessor ([] : ArgObj))⟩) := rfl
    rw [hL]
    exact congrArg
      (fun w => Except.ok (conn ⟨name,
        (Fragment.staticPrepare (FragmentList.ofList
          (vs.map (fun v => Fragment.value (A := ArgObj) v))) 1).1, w⟩))
      (staticPrepare_values_map vs 1 ([] : ArgObj))
